import Mathlib

/-!
Verification of the gemfast identity-and-admission control plane.

Each Go function under scrutiny is shallowly embedded as an executable Lean
definition.  Machine floats (CVSS scores) are embedded as rationals, which is
faithful here because every comparison in the source is between decimal
literals with one fractional digit, an order-embedding into `ℚ`.  The
third-party gem-version library (`go-gem-version`) is abstracted by an
arbitrary constraint-check function `chk : String → V → Bool` over an
arbitrary version type `V`; bolt buckets are embedded as association lists;
bcrypt is abstracted by an arbitrary hash/compare function.
-/

namespace GoStrings

/-- Embeds Go `strings.ToLower` (ASCII case folding suffices for the strings
compared by this program), written on the underlying character list so it
evaluates by kernel reduction. -/
def ToLower (s : String) : String := ⟨s.data.map Char.toLower⟩

end GoStrings

namespace Cve

/-- Embeds the Go struct `GemAdvisory` (fields not read by the verified
functions are omitted).  CVSS scores are rationals standing for the Go
`float64` fields. -/
structure GemAdvisory where
  gem : String
  cve : String
  cvssV2 : ℚ
  cvssV3 : ℚ
  patchedVersions : List String
  unaffectedVersions : List String
deriving DecidableEq, Repr

/-- The zero value `GemAdvisory{}` returned by the Go functions on the
not-found and error paths. -/
def GemAdvisory.zero : GemAdvisory := ⟨"", "", 0, 0, [], []⟩

/-- Embeds `severity`: classify an advisory from its CVSSv3 score when that
is nonzero, else from its CVSSv2 score.  The Go inner chains fall through to
the final `return "none"`, hence the inner `else "none"` branches. -/
def severity (cve : GemAdvisory) : String :=
  if cve.cvssV3 ≠ 0 then
    if cve.cvssV3 = 0 then "none"
    else if 0.1 ≤ cve.cvssV3 ∧ cve.cvssV3 ≤ 3.9 then "low"
    else if 4 ≤ cve.cvssV3 ∧ cve.cvssV3 ≤ 6.9 then "medium"
    else if 7 ≤ cve.cvssV3 ∧ cve.cvssV3 ≤ 8.9 then "high"
    else if 9 ≤ cve.cvssV3 ∧ cve.cvssV3 ≤ 10 then "critical"
    else "none"
  else if cve.cvssV2 ≠ 0 then
    if cve.cvssV2 = 0 ∧ cve.cvssV2 ≤ 3.9 then "low"
    else if 4 ≤ cve.cvssV2 ∧ cve.cvssV2 ≤ 6.9 then "medium"
    else if 7 ≤ cve.cvssV2 ∧ cve.cvssV2 ≤ 10 then "high"
    else "none"
  else "none"

/-- Embeds `acceptableSeverity`; `maxSeverity` stands for the configured
`config.Cfg.CVE.MaxSeverity`. -/
def acceptableSeverity (maxSeverity : String) (cve : GemAdvisory) : Bool :=
  let s := severity cve
  let highestSeverity := GoStrings.ToLower maxSeverity
  if s = "none" ∨ highestSeverity = "critical" then true
  else if highestSeverity = "low" then false
  else if highestSeverity = "medium" then s = "low" ∨ s = "medium"
  else if highestSeverity = "high" then s = "low" ∨ s = "medium" ∨ s = "high"
  else true

/-- Embeds `isPatchedVersion`: the version is patched for an advisory when it
satisfies any one of the advisory's patched-version constraints.  `chk pv v`
stands for `ggv.NewConstraints(pv).Check(v)`. -/
def isPatchedVersion {V : Type} (chk : String → V → Bool) (version : V)
    (cve : GemAdvisory) : Bool :=
  cve.patchedVersions.any (fun pv => chk pv version)

/-- Embeds `isUnaffectedVersion`, the mirror of `isPatchedVersion` over
the unaffected-version constraints. -/
def isUnaffectedVersion {V : Type} (chk : String → V → Bool) (version : V)
    (cve : GemAdvisory) : Bool :=
  cve.unaffectedVersions.any (fun pv => chk pv version)

/-- Embeds `isPatched`.  `entry` is the advisory-cache lookup result for the
gem (`none` = cache miss); `version` is the result of `ggv.NewVersion`
(`none` = parse error).  Result is `(patched, advisory, error?)`, matching
the Go `(bool, GemAdvisory, error)`. -/
def isPatched {V : Type} (chk : String → V → Bool)
    (entry : Option (List GemAdvisory)) (version : Option V) :
    Bool × GemAdvisory × Bool :=
  match entry with
  | none => (true, GemAdvisory.zero, false)
  | some cves =>
    match version with
    | none => (false, GemAdvisory.zero, true)
    | some gv =>
      match cves.find? (fun cve => ! isPatchedVersion chk gv cve) with
      | some cve => (false, cve, false)
      | none => (true, GemAdvisory.zero, false)

/-- Embeds `isUnaffected`, structurally identical to `isPatched` but over
the unaffected-version constraints. -/
def isUnaffected {V : Type} (chk : String → V → Bool)
    (entry : Option (List GemAdvisory)) (version : Option V) :
    Bool × GemAdvisory × Bool :=
  match entry with
  | none => (true, GemAdvisory.zero, false)
  | some cves =>
    match version with
    | none => (false, GemAdvisory.zero, true)
    | some gv =>
      match cves.find? (fun cve => ! isUnaffectedVersion chk gv cve) with
      | some cve => (false, cve, false)
      | none => (true, GemAdvisory.zero, false)

/-- Embeds `GetCVEs`, the admission decision.  The returned errors of
`isPatched` / `isUnaffected` are discarded exactly as in the source, and the
guard on appending the second advisory tests `cve1`'s severity exactly as the
source does. -/
def GetCVEs {V : Type} (chk : String → V → Bool) (maxSeverity : String)
    (entry : Option (List GemAdvisory)) (version : Option V) :
    List GemAdvisory :=
  let p := isPatched chk entry version
  let patched := p.1
  let cve1 := p.2.1
  if !patched then
    let cves := if !acceptableSeverity maxSeverity cve1 then [cve1] else []
    let u := isUnaffected chk entry version
    let unaffected := u.1
    let cve2 := u.2.1
    if !unaffected then
      if cve2.cve ≠ cve1.cve then
        if !acceptableSeverity maxSeverity cve1 then cves ++ [cve2] else cves
      else cves
    else cves
  else []

lemma toLower_low : GoStrings.ToLower "low" = "low" := by decide

lemma toLower_medium : GoStrings.ToLower "medium" = "medium" := by decide

lemma toLower_high : GoStrings.ToLower "high" = "high" := by decide

lemma toLower_critical : GoStrings.ToLower "critical" = "critical" := by decide

/-- `severity` only ever returns one of the five classification strings. -/
lemma severity_cases (cve : GemAdvisory) :
    severity cve = "none" ∨ severity cve = "low" ∨ severity cve = "medium" ∨
    severity cve = "high" ∨ severity cve = "critical" := by
  unfold severity
  split_ifs <;> simp

/-- An advisory with no CVSS score at all (the zero advisory in particular)
classifies as "none". -/
lemma severity_zero : severity GemAdvisory.zero = "none" := by
  norm_num [severity, GemAdvisory.zero]

/-- A "none"-severity advisory is acceptable under every threshold. -/
lemma acceptableSeverity_of_none (t : String) (cve : GemAdvisory)
    (h : severity cve = "none") : acceptableSeverity t cve = true := by
  simp [acceptableSeverity, h]

/-- C5: the threshold policy.  "none" severity always passes; threshold
"critical" passes everything; threshold "low" rejects every non-"none"
severity; threshold "medium" passes exactly the severities low and medium
(besides none); threshold "high" passes exactly low, medium and high
(besides none). -/
theorem acceptableSeverity_policy (cve : GemAdvisory) :
    (∀ t, severity cve = "none" → acceptableSeverity t cve = true)
    ∧ acceptableSeverity "critical" cve = true
    ∧ (severity cve ≠ "none" → acceptableSeverity "low" cve = false)
    ∧ acceptableSeverity "medium" cve =
        (severity cve == "none" || severity cve == "low" ||
          severity cve == "medium")
    ∧ acceptableSeverity "high" cve =
        (severity cve == "none" || severity cve == "low" ||
          severity cve == "medium" || severity cve == "high") := by
  refine ⟨fun t h => acceptableSeverity_of_none t cve h, ?_, ?_, ?_, ?_⟩ <;>
    rcases severity_cases cve with h | h | h | h | h <;>
      simp [acceptableSeverity, h, toLower_low, toLower_medium, toLower_high,
        toLower_critical]

/-- Witness for C5 at concrete advisories: the zero advisory (severity
"none") passes an arbitrary threshold, and a CVSSv3 9.0 advisory (severity
"critical") is rejected by threshold "low". -/
theorem acceptableSeverity_policy_witness :
    acceptableSeverity "unconfigured" GemAdvisory.zero = true ∧
    acceptableSeverity "low" ⟨"rails", "CVE-1", 0, 9, [], []⟩ = false := by
  constructor
  · exact (acceptableSeverity_policy GemAdvisory.zero).1 "unconfigured"
      severity_zero
  · refine (acceptableSeverity_policy ⟨"rails", "CVE-1", 0, 9, [], []⟩).2.2.1 ?_
    norm_num [severity]
    decide

/-- C2 counter-evidence: an advisory carrying only a CVSSv2 score of 2.0 is
classified "none" by the code, because the branch guard
`cve.CvssV2 == 0.0 && cve.CvssV2 <= 3.9` is unsatisfiable inside the
`CvssV2 != 0` branch (an evident typo for `>= 0.0`); the spec's table says
CVSSv2 0–3.9 classifies as "low". -/
theorem severity_cvssV2_low_range_is_none :
    severity ⟨"nokogiri", "CVE-2020-0001", 2, 0, [], []⟩ = "none" := by
  norm_num [severity]

/-- C6: when the requested version does not parse (`ggv.NewVersion` errors,
embedded as `version = none`), the admission decision returns no blocking
advisories, whatever the cached advisories and configured threshold are. -/
theorem getCVEs_unparsable_version_empty {V : Type} (chk : String → V → Bool)
    (maxSeverity : String) (entry : Option (List GemAdvisory)) :
    GetCVEs chk maxSeverity entry (none : Option V) = [] := by
  cases entry with
  | none => simp [GetCVEs, isPatched]
  | some cves =>
    simp [GetCVEs, isPatched, isUnaffected,
      acceptableSeverity_of_none maxSeverity GemAdvisory.zero severity_zero]

/-- A constraint checker for the C1 counterexample: the (only) unaffected
constraint of `advisoryU` is satisfied by the version under test. -/
def chkDemo : String → Unit → Bool := fun c _ => c == "< 99"

/-- The C1 counterexample advisory: no patched-version constraints, one
unaffected-version constraint that the version satisfies, CVSSv3 9.0
(severity "critical"). -/
def advisoryU : GemAdvisory := ⟨"rails", "CVE-2023-0001", 0, 9, [], ["< 99"]⟩

/-- C1 counter-evidence: the version under test satisfies an
unaffected-version constraint of `advisoryU` (so per the spec the advisory
must not block), yet `GetCVEs` returns it as blocking: `isPatched` selects
it (no patched constraint matches) and appends it without consulting its
unaffected status. -/
theorem getCVEs_blocks_unaffected_version :
    isUnaffectedVersion chkDemo () advisoryU = true ∧
    GetCVEs chkDemo "low" (some [advisoryU]) (some ()) = [advisoryU] := by
  constructor
  · decide
  · norm_num [GetCVEs, isPatched, isUnaffected, isPatchedVersion,
      isUnaffectedVersion, advisoryU, chkDemo, acceptableSeverity, severity,
      toLower_low, List.find?]
    decide

end Cve

namespace Middleware

/-- Embeds `userMemberOfRequiredOrg` (github.go).  `requiredOrgsCfg` stands
for `m.cfg.Auth.GitHubUserOrgs`, `userOrgs` for the org login names fetched
from the identity provider; result `true` stands for the nil-error (pass)
return.  `intersect.Hash(requiredOrgs, userOrgs)` collects the elements of
its second argument present in the first, so the pass condition is embedded
as: some lowercased user org is contained in the lowercased required list. -/
def userMemberOfRequiredOrg (requiredOrgsCfg userOrgs : List String) : Bool :=
  let lowerUserOrgs := userOrgs.map GoStrings.ToLower
  let requiredOrgs := requiredOrgsCfg.map GoStrings.ToLower
  !(lowerUserOrgs.filter (fun o => requiredOrgs.contains o)).isEmpty

/-- C3: the org-membership gate passes exactly when the case-insensitive
intersection of the user's orgs with the configured required orgs is
non-empty; with an empty required-organizations configuration it denies
every user. -/
theorem userMemberOfRequiredOrg_iff (requiredOrgs userOrgs : List String) :
    (userMemberOfRequiredOrg requiredOrgs userOrgs = true ↔
      ∃ u ∈ userOrgs, ∃ r ∈ requiredOrgs,
        GoStrings.ToLower u = GoStrings.ToLower r)
    ∧ userMemberOfRequiredOrg [] userOrgs = false := by
  constructor
  · unfold userMemberOfRequiredOrg
    simp [List.isEmpty_iff, List.filter_eq_nil_iff, List.mem_map]
    constructor
    · rintro ⟨u, hu, r, hr, h⟩
      exact ⟨u, hu, r, hr, h.symm⟩
    · rintro ⟨u, hu, r, hr, h⟩
      exact ⟨u, hu, r, hr, h.symm⟩
  · unfold userMemberOfRequiredOrg
    simp

/-- The error value `jmw.ErrInvalidSigningAlgorithm` returned by the key
callback, and the generic signature-verification failure of the library. -/
inductive JwtError where
  | invalidSigningAlgorithm
  | invalidSignature
deriving DecidableEq, Repr

/-- A presented session token, reduced to what the verification path reads:
the header's declared algorithm, the signed payload, and the signature. -/
structure JwtToken where
  alg : String
  payload : String
  sig : String
deriving DecidableEq, Repr

/-- Embeds the key callback passed to `jwt.Parse` in `GitHubMiddlewareFunc`:
reject unless the token's method is the HS256 singleton, else hand back the
configured secret key. -/
def githubKeyFunc (secretKey : String) (t : JwtToken) : Except JwtError String :=
  if "HS256" ≠ t.alg then Except.error JwtError.invalidSigningAlgorithm
  else Except.ok secretKey

/-- Models `jwt.Parse` of the golang-jwt library as used at the verification
site: the key callback (the code under verification) is consulted first; a
callback error fails the parse before any signature check; otherwise the
signature is verified under the algorithm the token header declares,
abstracted by an arbitrary `verify alg key payload sig`. -/
def jwtParse (verify : String → String → String → String → Bool)
    (keyFunc : JwtToken → Except JwtError String) (t : JwtToken) :
    Except JwtError JwtToken :=
  match keyFunc t with
  | Except.error e => Except.error e
  | Except.ok key =>
    if verify t.alg key t.payload t.sig then Except.ok t
    else Except.error JwtError.invalidSignature

/-- Embeds the session-token verification performed by
`GitHubMiddlewareFunc`: `jwt.Parse` with the HS256-only key callback. -/
def gitHubMiddlewareVerify (verify : String → String → String → String → Bool)
    (secretKey : String) (t : JwtToken) : Except JwtError JwtToken :=
  jwtParse verify (githubKeyFunc secretKey) t

/-- C4: a token whose header declares any algorithm other than HS256 is
rejected with the invalid-signing-algorithm error, whatever the signature
verifier would say about it. -/
theorem gitHubMiddlewareVerify_rejects_non_hs256
    (verify : String → String → String → String → Bool) (secretKey : String)
    (t : JwtToken) (h : t.alg ≠ "HS256") :
    gitHubMiddlewareVerify verify secretKey t =
      Except.error JwtError.invalidSigningAlgorithm := by
  simp [gitHubMiddlewareVerify, jwtParse, githubKeyFunc, Ne.symm h]

/-- Witness for C4: a token claiming RS256 is rejected even though the
abstract signature verifier accepts everything. -/
theorem gitHubMiddlewareVerify_rejects_non_hs256_witness :
    gitHubMiddlewareVerify (fun _ _ _ _ => true) "secret" ⟨"RS256", "p", "s"⟩ =
      Except.error JwtError.invalidSigningAlgorithm :=
  gitHubMiddlewareVerify_rejects_non_hs256 (fun _ _ _ _ => true) "secret"
    ⟨"RS256", "p", "s"⟩ (by decide)

end Middleware

namespace Models

/-- Embeds the Go struct `User` (username, bcrypt password hash, data-plane
token).  The hash bytes are embedded as a string. -/
structure User where
  username : String
  password : String
  token : String
deriving DecidableEq, Repr

/-- The zero value `User{}`. -/
def User.zero : User := ⟨"", "", ""⟩

/-- The USER_BUCKET of the bolt database, embedded as an association list
from username key to stored record.  JSON encoding/decoding of records is
elided: the store holds the records themselves, so the unmarshal error path
of the source cannot fire. -/
abbrev UserDB := List (String × User)

/-- Embeds `tx.Bucket(USER_BUCKET).Get(key)` (`none` = key absent). -/
def dbGet : UserDB → String → Option User
  | [], _ => none
  | (k, u) :: rest, key => if key = k then some u else dbGet rest key

/-- Embeds `b.Delete(key)`. -/
def dbDelete : UserDB → String → UserDB
  | [], _ => []
  | (k, u) :: rest, key =>
    if k = key then dbDelete rest key else (k, u) :: dbDelete rest key

/-- Embeds `b.Put(key, value)`: replace any existing entry for the key. -/
def dbPut (st : UserDB) (key : String) (u : User) : UserDB :=
  (key, u) :: dbDelete st key

lemma dbGet_dbDelete (st : UserDB) (k key : String) :
    dbGet (dbDelete st k) key = if key = k then none else dbGet st key := by
  induction st with
  | nil => simp [dbDelete, dbGet]
  | cons p rest ih =>
    obtain ⟨k', u⟩ := p
    by_cases h1 : k' = k <;> by_cases h2 : key = k <;> by_cases h3 : key = k' <;>
      simp_all [dbGet, dbDelete]

lemma dbGet_dbPut (st : UserDB) (k : String) (u : User) (key : String) :
    dbGet (dbPut st k u) key = if key = k then some u else dbGet st key := by
  simp only [dbPut, dbGet, dbGet_dbDelete]
  split_ifs <;> simp [dbGet_dbDelete]

lemma dbGet_some_mem (st : UserDB) (u : String) (r : User)
    (h : dbGet st u = some r) : u ∈ st.map Prod.fst := by
  induction st with
  | nil => simp [dbGet] at h
  | cons p rest ih =>
    obtain ⟨k, v⟩ := p
    simp only [dbGet] at h
    by_cases hk : u = k
    · simp [hk]
    · simp [hk] at h
      simp [ih h]

/-- Embeds `GetUser`: a missing key yields the zero `User` together with a
nil error. -/
def GetUser (st : UserDB) (username : String) : Except String User :=
  match dbGet st username with
  | none => Except.ok User.zero
  | some u => Except.ok u

/-- Embeds `AuthenticateLocalUser`.  `bcryptCheck hash password` abstracts
`bcrypt.CompareHashAndPassword` succeeding; the result is
`(authenticated, error?)`, matching the Go `(bool, error)`. -/
def AuthenticateLocalUser (bcryptCheck : String → String → Bool)
    (st : UserDB) (incoming : User) : Bool × Bool :=
  match GetUser st incoming.username with
  | Except.error _ => (false, true)
  | Except.ok current =>
    if bcryptCheck current.password incoming.password then (true, false)
    else (false, true)

/-- Outcome of the login `Authenticator` of `NewJwtMiddleware`: either the
authenticated value, or the single uniform `jwt.ErrFailedAuthentication`. -/
inductive AuthResult where
  | ok (authenticated : Bool)
  | failedAuthentication
deriving DecidableEq, Repr

/-- Embeds the `Authenticator` closure of `NewJwtMiddleware` (jwt.go):
build the incoming `User` from the submitted credentials and collapse any
error from `AuthenticateLocalUser` into `ErrFailedAuthentication`. -/
def Authenticator (bcryptCheck : String → String → Bool) (st : UserDB)
    (username password : String) : AuthResult :=
  let p := AuthenticateLocalUser bcryptCheck st ⟨username, password, ""⟩
  if p.2 then AuthResult.failedAuthentication else AuthResult.ok p.1

/-- C7: local login fails with the one uniform failure value both when the
username is absent from the store and when it is present but the bcrypt
comparison rejects the password.  The hypothesis `hzero` is the bcrypt
contract that the comparison rejects the empty (zero-value) stored hash. -/
theorem authenticator_uniform_failure (bcryptCheck : String → String → Bool)
    (st : UserDB) (username password : String)
    (hzero : bcryptCheck "" password = false) :
    (dbGet st username = none →
      Authenticator bcryptCheck st username password =
        AuthResult.failedAuthentication)
    ∧ (∀ u, dbGet st username = some u →
        bcryptCheck u.password password = false →
        Authenticator bcryptCheck st username password =
          AuthResult.failedAuthentication) := by
  constructor
  · intro h
    simp [Authenticator, AuthenticateLocalUser, GetUser, h, User.zero, hzero]
  · intro u h hc
    simp [Authenticator, AuthenticateLocalUser, GetUser, h, hc]

/-- A concrete bcrypt-comparison stand-in for the C7 witness: accepts
exactly the stored hash "H1" with the password "secret". -/
def bcryptCheckW : String → String → Bool :=
  fun hash pw => hash == "H1" && pw == "secret"

/-- The concrete user store for the C7 witness. -/
def storeW : UserDB := [("alice", ⟨"alice", "H1", ""⟩)]

/-- Witness for C7: the unknown user "bob" and the known user "alice" with a
wrong password produce the same failure value. -/
theorem authenticator_uniform_failure_witness :
    Authenticator bcryptCheckW storeW "bob" "secret" =
      AuthResult.failedAuthentication
    ∧ Authenticator bcryptCheckW storeW "alice" "wrong" =
      AuthResult.failedAuthentication := by
  constructor
  · exact (authenticator_uniform_failure bcryptCheckW storeW "bob" "secret"
      (by decide)).1 (by decide)
  · exact (authenticator_uniform_failure bcryptCheckW storeW "alice" "wrong"
      (by decide)).2 ⟨"alice", "H1", ""⟩ (by decide) (by decide)

/-- C9 counterexample: for a store not containing "bob", `GetUser` returns
an ordinary (zero-valued) `User` with a nil error — the very same outcome a
successful lookup of a stored zero-valued account would produce — rather
than a distinguishable not-found result. -/
theorem getUser_missing_not_distinguishable :
    dbGet ([] : UserDB) "bob" = none
    ∧ GetUser ([] : UserDB) "bob" = Except.ok User.zero
    ∧ GetUser [("bob", User.zero)] "bob" = Except.ok User.zero := by
  refine ⟨rfl, rfl, ?_⟩
  simp [GetUser, dbGet, User.zero]

/-- C9 amended: `GetUser` on a username with no stored record returns the
zero `User` and no error; absence is signalled only by the zero value. -/
theorem getUser_missing_returns_zero (st : UserDB) (username : String)
    (h : dbGet st username = none) :
    GetUser st username = Except.ok User.zero := by
  simp [GetUser, h]

/-- Witness for the amended C9 at the empty store. -/
theorem getUser_missing_returns_zero_witness :
    GetUser ([] : UserDB) "bob" = Except.ok User.zero :=
  getUser_missing_returns_zero [] "bob" rfl

/-- Embeds the first loop of `CreateLocalUsers`: for every declared
`username:password` pair, put a `User` with the freshly bcrypt-hashed
password (`hashFn` abstracts `bcrypt.GenerateFromPassword`). -/
def putAll (hashFn : String → String) :
    List (String × String) → UserDB → UserDB
  | [], st => st
  | p :: rest, st => putAll hashFn rest (dbPut st p.1 ⟨p.1, hashFn p.2, ""⟩)

/-- Embeds the second loop of `CreateLocalUsers`: delete every collected
username that is not in the declared-name set `m`. -/
def deleteAll (declaredNames : List String) :
    List String → UserDB → UserDB
  | [], st => st
  | k :: rest, st =>
    deleteAll declaredNames rest
      (if declaredNames.contains k then st else dbDelete st k)

/-- Embeds `CreateLocalUsers`.  `pairs` is the parsed content of the
`GEMFAST_ADD_LOCAL_USERS` environment variable; the source returns early
when that variable is empty, which at this level is the empty pair list
(a non-empty variable always splits into at least one pair). -/
def CreateLocalUsers (hashFn : String → String)
    (pairs : List (String × String)) (st : UserDB) : UserDB :=
  if pairs.isEmpty then st
  else
    deleteAll (pairs.map Prod.fst)
      ((st.map Prod.fst).filter (fun k => !(k == "admin")))
      (putAll hashFn pairs st)

lemma putAll_get_not_declared (hashFn : String → String)
    (pairs : List (String × String)) (st : UserDB) (key : String)
    (h : key ∉ pairs.map Prod.fst) :
    dbGet (putAll hashFn pairs st) key = dbGet st key := by
  induction pairs generalizing st with
  | nil => rfl
  | cons p rest ih =>
    simp only [List.map_cons, List.mem_cons, not_or] at h
    simp only [putAll]
    rw [ih _ h.2, dbGet_dbPut]
    simp [h.1]

lemma putAll_get_declared (hashFn : String → String)
    (pairs : List (String × String)) (st : UserDB) (u pw : String)
    (hnd : (pairs.map Prod.fst).Nodup) (hmem : (u, pw) ∈ pairs) :
    dbGet (putAll hashFn pairs st) u = some ⟨u, hashFn pw, ""⟩ := by
  induction pairs generalizing st with
  | nil => cases hmem
  | cons p rest ih =>
    simp only [List.map_cons, List.nodup_cons] at hnd
    rcases List.mem_cons.mp hmem with heq | hrest
    · subst heq
      simp only [putAll]
      rw [putAll_get_not_declared hashFn rest _ u hnd.1, dbGet_dbPut]
      simp
    · exact ih _ hnd.2 hrest

lemma deleteAll_get_none_preserved (d names : List String) (st : UserDB)
    (u : String) (h : dbGet st u = none) :
    dbGet (deleteAll d names st) u = none := by
  induction names generalizing st with
  | nil => exact h
  | cons k rest ih =>
    simp only [deleteAll]
    apply ih
    split_ifs
    · exact h
    · rw [dbGet_dbDelete]
      split_ifs <;> simp [h]

lemma deleteAll_get_deleted (d names : List String) (st : UserDB)
    (u : String) (h1 : u ∈ names) (h2 : d.contains u = false) :
    dbGet (deleteAll d names st) u = none := by
  induction names generalizing st with
  | nil => cases h1
  | cons k rest ih =>
    rcases List.mem_cons.mp h1 with heq | hrest
    · subst heq
      simp only [deleteAll, h2, Bool.false_eq_true, if_false]
      apply deleteAll_get_none_preserved
      rw [dbGet_dbDelete]
      simp
    · simp only [deleteAll]
      exact ih _ hrest

lemma deleteAll_get_declared (d names : List String) (st : UserDB)
    (u : String) (h : d.contains u = true) :
    dbGet (deleteAll d names st) u = dbGet st u := by
  induction names generalizing st with
  | nil => rfl
  | cons k rest ih =>
    simp only [deleteAll]
    rw [ih]
    split_ifs with hk
    · rfl
    · rw [dbGet_dbDelete]
      have : u ≠ k := by
        intro heq
        subst heq
        exact hk (by simpa using h)
      simp [this]

lemma deleteAll_get_not_collected (d names : List String) (st : UserDB)
    (a : String) (h : ∀ k ∈ names, k ≠ a) :
    dbGet (deleteAll d names st) a = dbGet st a := by
  induction names generalizing st with
  | nil => rfl
  | cons k rest ih =>
    simp only [deleteAll]
    rw [ih _ (fun x hx => h x (List.mem_cons_of_mem k hx))]
    split_ifs
    · rfl
    · rw [dbGet_dbDelete]
      have : a ≠ k := fun heq => h k (List.mem_cons_self k rest) heq.symm
      simp [this]

/-- C8: after bulk reconciliation every declared username is stored with its
freshly hashed declared password; every previously existing non-admin
username not in the declared set is gone; and a pre-existing "admin" account
still exists.  The declared list is non-empty (an empty declaration variable
returns before reconciling) and declares each username once. -/
theorem createLocalUsers_reconciles (hashFn : String → String)
    (pairs : List (String × String)) (st : UserDB)
    (hne : pairs ≠ []) (hnd : (pairs.map Prod.fst).Nodup) :
    (∀ u pw, (u, pw) ∈ pairs →
      dbGet (CreateLocalUsers hashFn pairs st) u = some ⟨u, hashFn pw, ""⟩)
    ∧ (∀ u, u ≠ "admin" → u ∈ st.map Prod.fst → u ∉ pairs.map Prod.fst →
        dbGet (CreateLocalUsers hashFn pairs st) u = none)
    ∧ (∀ a, dbGet st "admin" = some a →
        ∃ b, dbGet (CreateLocalUsers hashFn pairs st) "admin" = some b) := by
  have hni : pairs.isEmpty = false := by
    cases pairs with
    | nil => cases hne rfl
    | cons p rest => rfl
  refine ⟨?_, ?_, ?_⟩
  · intro u pw hmem
    have hu : u ∈ pairs.map Prod.fst := List.mem_map.mpr ⟨(u, pw), hmem, rfl⟩
    have hc : (pairs.map Prod.fst).contains u = true := by
      simpa using hu
    simp only [CreateLocalUsers, hni, Bool.false_eq_true, if_false]
    rw [deleteAll_get_declared _ _ _ _ hc]
    exact putAll_get_declared hashFn pairs st u pw hnd hmem
  · intro u hadmin hmem hnd2
    have hc : (pairs.map Prod.fst).contains u = false := by
      simpa using hnd2
    have hcol : u ∈ (st.map Prod.fst).filter (fun k => !(k == "admin")) := by
      refine List.mem_filter.mpr ⟨hmem, ?_⟩
      simpa using hadmin
    simp only [CreateLocalUsers, hni, Bool.false_eq_true, if_false]
    exact deleteAll_get_deleted _ _ _ u hcol hc
  · intro a ha
    simp only [CreateLocalUsers, hni, Bool.false_eq_true, if_false]
    by_cases hd : (pairs.map Prod.fst).contains "admin" = true
    · rw [deleteAll_get_declared _ _ _ _ hd]
      have : "admin" ∈ pairs.map Prod.fst := by simpa using hd
      rcases List.mem_map.mp this with ⟨p, hp, hfst⟩
      refine ⟨⟨"admin", hashFn p.2, ""⟩, ?_⟩
      have : (("admin" : String), p.2) ∈ pairs := by
        rw [← hfst]
        exact hp
      exact putAll_get_declared hashFn pairs st "admin" p.2 hnd this
    · have hall : ∀ k ∈ (st.map Prod.fst).filter (fun k => !(k == "admin")),
          k ≠ "admin" := by
        intro k hk
        have := (List.mem_filter.mp hk).2
        simpa using this
      rw [deleteAll_get_not_collected _ _ _ _ hall]
      have hnadm : "admin" ∉ pairs.map Prod.fst := by
        intro hmem
        exact hd (by simpa using hmem)
      rw [putAll_get_not_declared hashFn pairs st _ hnadm]
      exact ⟨a, ha⟩

/-- The hash function stand-in for the C8 witness. -/
def hashW : String → String := fun s => s ++ "#hashed"

/-- The declared pairs of the C8 witness (the spec's reconciliation
example). -/
def pairsW : List (String × String) := [("alice", "pw1"), ("bob", "pw2")]

/-- The starting store of the C8 witness: existing non-admin accounts alice
and carol, plus the admin account. -/
def startW : UserDB :=
  [("alice", ⟨"alice", "oldhash", ""⟩), ("carol", ⟨"carol", "carolhash", ""⟩),
    ("admin", ⟨"admin", "adminhash", ""⟩)]

/-- Witness for C8 at the spec's example: alice is updated, carol is
removed, admin survives. -/
theorem createLocalUsers_reconciles_witness :
    dbGet (CreateLocalUsers hashW pairsW startW) "alice" =
      some ⟨"alice", hashW "pw1", ""⟩
    ∧ dbGet (CreateLocalUsers hashW pairsW startW) "carol" = none
    ∧ ∃ b, dbGet (CreateLocalUsers hashW pairsW startW) "admin" = some b := by
  have T := createLocalUsers_reconciles hashW pairsW startW (by decide)
    (by decide)
  refine ⟨T.1 "alice" "pw1" (by decide), ?_, ?_⟩
  · exact T.2.1 "carol" (by decide) (by decide) (by decide)
  · exact T.2.2 ⟨"admin", "adminhash", ""⟩ (by decide)

end Models

namespace GemParam

/-- Embeds Go `strings.Split(s, sep)` for a single-character separator,
on the character-list representation of strings. -/
def splitChar (c : Char) : List Char → List (List Char)
  | [] => [[]]
  | x :: xs =>
    match splitChar c xs with
    | [] => [[]]
    | y :: ys => if x = c then [] :: y :: ys else (x :: y) :: ys

/-- Embeds Go `strings.Join(l, sep)` for a single-character separator. -/
def joinChar (c : Char) : List (List Char) → List Char
  | [] => []
  | [y] => y
  | y :: ys => y ++ c :: joinChar c ys

lemma splitChar_ne_nil (c : Char) (s : List Char) : splitChar c s ≠ [] := by
  cases s with
  | nil => simp [splitChar]
  | cons x xs =>
    simp only [splitChar]
    cases h : splitChar c xs with
    | nil => simp
    | cons y ys => split_ifs <;> simp

/-- Splitting and rejoining on the same separator is the identity. -/
lemma joinChar_splitChar (c : Char) (s : List Char) :
    joinChar c (splitChar c s) = s := by
  induction s with
  | nil => rfl
  | cons x xs ih =>
    simp only [splitChar]
    cases h : splitChar c xs with
    | nil => exact absurd h (splitChar_ne_nil c xs)
    | cons y ys =>
      rw [h] at ih
      by_cases hx : x = c
      · subst hx
        simp only [if_pos rfl, joinChar, List.nil_append]
        rw [ih]
      · simp only [if_neg hx]
        cases ys with
        | nil =>
          simp only [joinChar] at ih ⊢
          rw [ih]
        | cons z zs =>
          simp only [joinChar, List.cons_append] at ih ⊢
          rw [ih]

/-- The last chunk of a split never contains the separator. -/
lemma splitChar_getLastD_not_mem (c : Char) (s : List Char) :
    c ∉ (splitChar c s).getLastD [] := by
  induction s with
  | nil => simp [splitChar]
  | cons x xs ih =>
    simp only [splitChar]
    cases h : splitChar c xs with
    | nil => exact absurd h (splitChar_ne_nil c xs)
    | cons y ys =>
      rw [h] at ih
      by_cases hx : x = c
      · simpa [hx, List.getLastD_cons] using ih
      · simp only [if_neg hx]
        cases ys with
        | nil =>
          simp only [List.getLastD_cons, List.getLastD_nil] at ih ⊢
          simp only [List.mem_cons, not_or]
          exact ⟨fun hh => hx hh.symm, ih⟩
        | cons z zs =>
          simpa [List.getLastD_cons] using ih

/-- The split has at least two chunks exactly when the separator occurs. -/
lemma mem_splitChar_length (c : Char) (s : List Char) :
    c ∈ s ↔ 2 ≤ (splitChar c s).length := by
  induction s with
  | nil => simp [splitChar]
  | cons x xs ih =>
    simp only [splitChar]
    cases h : splitChar c xs with
    | nil => exact absurd h (splitChar_ne_nil c xs)
    | cons y ys =>
      rw [h] at ih
      by_cases hx : x = c
      · subst hx
        simp [List.length_cons]
      · simp only [if_neg hx, List.length_cons, List.mem_cons]
        constructor
        · rintro (heq | hmem)
          · exact absurd heq.symm hx
          · have := ih.mp hmem
            simp only [List.length_cons] at this
            omega
        · intro hl
          have : c ∈ xs := ih.mpr (by simp only [List.length_cons]; omega)
          exact Or.inr this

/-- Rejoining all chunks but the last, then appending the separator and the
last chunk, reproduces rejoining all chunks, for two or more chunks. -/
lemma joinChar_dropLast_getLastD (c : Char) (y z : List Char)
    (rest : List (List Char)) :
    joinChar c ((y :: z :: rest).dropLast) ++
        c :: (y :: z :: rest).getLastD []
      = joinChar c (y :: z :: rest) := by
  induction rest generalizing y z with
  | nil => simp [joinChar, List.dropLast, List.getLastD_cons]
  | cons w ws ih =>
    have hd : (y :: z :: w :: ws).dropLast = y :: (z :: w :: ws).dropLast :=
      rfl
    have hd2 : (z :: w :: ws).dropLast = z :: (w :: ws).dropLast := rfl
    rw [hd, hd2]
    have hjoin : joinChar c (y :: z :: (w :: ws).dropLast) =
        y ++ c :: joinChar c (z :: (w :: ws).dropLast) := rfl
    rw [hjoin, ← hd2]
    have hlast : (y :: z :: w :: ws).getLastD [] =
        (z :: w :: ws).getLastD [] := by
      simp [List.getLastD_cons]
    rw [hlast, List.append_assoc, List.cons_append]
    rw [show (c :: (joinChar c ((z :: w :: ws).dropLast) ++
        c :: (z :: w :: ws).getLastD [])) =
        c :: joinChar c (z :: w :: ws) from by rw [ih]]
    rfl

/-- Embeds the Go struct `Gem` on the character-list representation of
strings (the `Platform` field is not set by `GemFromGemParameter`). -/
structure Gem where
  name : List Char
  number : List Char
  platform : List Char
deriving DecidableEq, Repr

/-- Embeds `GemFromGemParameter`: split the path parameter on hyphens; the
loop copies every chunk but the last into the name parts and takes the last
chunk as the version number; the name parts are rejoined with hyphens. -/
def GemFromGemParameter (param : List Char) : Gem :=
  let chunks := splitChar '-' param
  { name := joinChar '-' chunks.dropLast
    number := chunks.getLastD []
    platform := [] }

/-- C10: for a parameter containing a hyphen, the parsed name and number
rejoin with a hyphen to the original parameter, and the number (the text
after the last hyphen) contains no hyphen. -/
theorem gemFromGemParameter_roundtrip (param : List Char)
    (h : '-' ∈ param) :
    (GemFromGemParameter param).name ++
        '-' :: (GemFromGemParameter param).number = param
    ∧ '-' ∉ (GemFromGemParameter param).number := by
  have hlen := (mem_splitChar_length '-' param).mp h
  constructor
  · show joinChar '-' (splitChar '-' param).dropLast ++
        '-' :: (splitChar '-' param).getLastD [] = param
    cases hc : splitChar '-' param with
    | nil => exact absurd hc (splitChar_ne_nil '-' param)
    | cons y ys =>
      cases ys with
      | nil =>
        rw [hc] at hlen
        simp at hlen
      | cons z zs =>
        rw [joinChar_dropLast_getLastD, ← hc, joinChar_splitChar]
  · show '-' ∉ (splitChar '-' param).getLastD []
    exact splitChar_getLastD_not_mem '-' param

/-- Witness for C10 at the parameter "rails-7.0.4". -/
theorem gemFromGemParameter_roundtrip_witness :
    (GemFromGemParameter "rails-7.0.4".toList).name ++
        '-' :: (GemFromGemParameter "rails-7.0.4".toList).number
      = "rails-7.0.4".toList :=
  (gemFromGemParameter_roundtrip "rails-7.0.4".toList (by decide)).1

end GemParam
